import Mathlib

/-!
Shallow embedding of the automatic-spoon state engine (src/app.rs): the
State/View data model, the Msg catalog, and the App::update reducer.
BTreeMap<String, _> is modelled as an association list, the OsRng pick of
choose_from_list is abstracted as an index supplied to the handler,
DialogService::confirm is a boolean input, and a panic escaping a handler
is modelled as none.
-/

namespace Spoon

/-- Item (src/app.rs, struct Item): four independently optional fields. -/
structure Item where
  name : Option String
  image : Option String
  link : Option String
  comment : Option String
deriving DecidableEq

/-- Item::default(): all four fields None. -/
def Item.default : Item := ⟨none, none, none, none⟩

/-- Association-list model of BTreeMap<String, α>. -/
abbrev Smap (α : Type) : Type := List (String × α)

/-- BTreeMap::get. -/
def Smap.find? {α : Type} : Smap α → String → Option α
  | [], _ => none
  | (k0, v0) :: rest, k => if k0 = k then some v0 else Smap.find? rest k

/-- BTreeMap::insert: overwrites the entry for the key, or adds one. -/
def Smap.insert {α : Type} : Smap α → String → α → Smap α
  | [], k, v => [(k, v)]
  | (k0, v0) :: rest, k, v =>
    if k0 = k then (k0, v) :: rest else (k0, v0) :: Smap.insert rest k v

/-- BTreeMap::entry(k).or_default(): inserts the default only when absent. -/
def Smap.insertIfAbsent {α : Type} (m : Smap α) (k : String) (v : α) : Smap α :=
  match Smap.find? m k with
  | some _ => m
  | none => (k, v) :: m

/-- BTreeMap::remove (the key and its value disappear; no-op when absent). -/
def Smap.erase {α : Type} : Smap α → String → Smap α
  | [], _ => []
  | (k0, v0) :: rest, k => if k0 = k then rest else (k0, v0) :: Smap.erase rest k

/-- BTreeMap::get_mut(k) followed by an infallible in-place mutation of the
value; no-op when the key is absent. -/
def Smap.modify {α : Type} : Smap α → String → (α → α) → Smap α
  | [], _, _ => []
  | (k0, v0) :: rest, k, f =>
    if k0 = k then (k0, f v0) :: rest else (k0, v0) :: Smap.modify rest k f

/-- BTreeMap::get_mut(k) followed by a mutation that can panic (none):
absent key is a no-op, a panic inside the closure propagates. -/
def Smap.modifyM {α : Type} : Smap α → String → (α → Option α) → Option (Smap α)
  | [], _, _ => some []
  | (k0, v0) :: rest, k, f =>
    if k0 = k then Option.map (fun w => (k0, w) :: rest) (f v0)
    else Option.map (fun m => (k0, v0) :: m) (Smap.modifyM rest k f)

/-- iter_mut over all entries, mutating every value. -/
def Smap.mapValues {α : Type} (m : Smap α) (f : α → α) : Smap α :=
  m.map (fun p => (p.1, f p.2))

/-- The keys are pairwise distinct (always true of a BTreeMap). -/
abbrev Smap.KeysNodup {α : Type} (m : Smap α) : Prop :=
  (m.map Prod.fst).Nodup

/-- Vec::remove(idx): removes the element at idx, shifting later elements
down by one; none models the panic when idx is out of range. -/
def vecRemove {α : Type} : List α → Nat → Option (List α)
  | [], _ => none
  | _ :: xs, 0 => some xs
  | x :: xs, n + 1 => Option.map (fun ys => x :: ys) (vecRemove xs n)

/-- Vec::get_mut(idx) followed by an in-place update: out-of-range no-op. -/
def listModify {α : Type} : List α → Nat → (α → α) → List α
  | [], _, _ => []
  | x :: xs, 0, f => f x :: xs
  | x :: xs, n + 1, f => x :: listModify xs n f

/-- Iterator::position: index of the first element satisfying p. -/
def listPosition {α : Type} (p : α → Bool) : List α → Option Nat
  | [] => none
  | x :: xs => if p x then some 0 else Option.map (fun n => n + 1) (listPosition p xs)

/-- The body of the scrub loop, with explicit fuel so that it is structural:
as long as an occurrence of name is found, remove it. -/
def scrubFuel (name : String) : Nat → List String → List String
  | 0, g => g
  | fuel + 1, g =>
    match listPosition (fun x => decide (x = name)) g with
    | none => g
    | some idx => scrubFuel name fuel (g.eraseIdx idx)

/-- The loop `while let Some(idx) = group.iter().position(|x| *x == name)
{ group.remove(idx); }` of RemoveList and RemoveGroupItem. Each iteration
removes one element, so fuel g.length always suffices. -/
def scrub (g : List String) (name : String) : List String :=
  scrubFuel name g.length g

/-- State (src/app.rs, struct State): the two persisted maps. -/
structure State where
  lists : Smap (List Item)
  groups : Smap (List String)
deriving DecidableEq

/-- State::default(): both maps empty. -/
def State.default : State := ⟨[], []⟩

/-- View (src/app.rs, struct View): transient focus, input buffers and the
selection cache. -/
structure View where
  current_list : String
  new_list_name : String
  current_group : String
  new_group_name : String
  cache : Smap Item
  current_item : Option Nat
deriving DecidableEq

/-- View::default(): empty strings, empty cache, no current item. -/
def View.default : View := ⟨"", "", "", "", [], none⟩

/-- The combined mutable fields of App that update touches. -/
structure AppState where
  state : State
  view : View
deriving DecidableEq

/-- Msg (src/app.rs, enum Msg). -/
inductive Msg where
  | CreateItem
  | EditItemName (text : String)
  | EditItemImage (text : String)
  | EditItemLink (text : String)
  | EditItemComment (text : String)
  | FocusItem (idx : Nat)
  | BlurItem
  | CreateList
  | FocusList (name : String)
  | BlurList
  | UpdateListName (text : String)
  | RemoveList (name : String)
  | RemoveListItem (idx : Nat)
  | CreateGroup
  | FocusGroup (name : String)
  | BlurGroup
  | AddToGroup (entry : String)
  | UpdateGroupName (text : String)
  | RemoveGroup (name : String)
  | RemoveGroupItem (name : String)
  | ThawAllLists
  | FreezeList (name : String)
  | ThawList (name : String)
  | Purge
  | Tick
  | Nothing
deriving DecidableEq

/-- The empty-string normalization of the EditItem handlers:
`match text.is_empty() { true => None, false => Some(text) }`. -/
def normText (text : String) : Option String :=
  if text = "" then none else some text

/-- App::choose_from_list, with the OsRng pick abstracted as the index r:
an absent list yields Item::default() via unwrap_or_default; a present
nonempty list yields the element at r % len (choose picks some index of
the list); a present empty list yields none, modelling the panic of
unwrap applied to the None that choose returns on an empty iterator. -/
def choose_from_list (s : State) (r : Nat) (name : String) : Option Item :=
  match Smap.find? s.lists name with
  | none => some Item.default
  | some list => list.get? (r % list.length)

/-- App::get_current_item_mut followed by an in-place field update: no-op
when the current list is absent or the current item is unset or out of
range. -/
def editCurrentItem (a : AppState) (f : Item → Item) : AppState :=
  match a.view.current_item with
  | none => a
  | some idx =>
    { a with state := { a.state with
        lists := Smap.modify a.state.lists a.view.current_list
          (fun l => listModify l idx f) } }

/-- The match msg body of App::update (src/app.rs, fn update), message by
message; confirm is the answer DialogService::confirm returns, r abstracts
the OsRng pick. none means a panic escaped the handler. -/
def updateCore (a : AppState) (msg : Msg) (confirm : Bool) (r : Nat) : Option AppState :=
  match msg with
  | Msg.CreateList =>
    some { state := { a.state with
             lists := Smap.insertIfAbsent a.state.lists a.view.new_list_name [] },
           view := { a.view with
             current_list := a.view.new_list_name, new_list_name := "" } }
  | Msg.CreateGroup =>
    some { state := { a.state with
             groups := Smap.insertIfAbsent a.state.groups a.view.new_group_name [] },
           view := { a.view with
             current_group := a.view.new_group_name, new_group_name := "" } }
  | Msg.FocusList name =>
    some { a with view := { a.view with current_list := name } }
  | Msg.FocusGroup name =>
    some { a with view := { a.view with current_group := name } }
  | Msg.BlurList =>
    some { a with view := { a.view with current_list := "", current_item := none } }
  | Msg.BlurGroup =>
    some { a with view := { a.view with current_group := "" } }
  | Msg.CreateItem =>
    match Smap.find? a.state.lists a.view.current_list with
    | none => some { a with view := { a.view with current_item := none } }
    | some l =>
      some { state := { a.state with
               lists := Smap.modify a.state.lists a.view.current_list
                 (fun xs => xs ++ [Item.default]) },
             view := { a.view with current_item := some l.length } }
  | Msg.FocusItem idx =>
    some { a with view := { a.view with current_item := some idx } }
  | Msg.BlurItem =>
    some { a with view := { a.view with current_item := none } }
  | Msg.AddToGroup entry =>
    some { a with state := { a.state with
             groups := Smap.modify a.state.groups a.view.current_group
               (fun g => g ++ [entry]) } }
  | Msg.UpdateListName text =>
    some { a with view := { a.view with new_list_name := text } }
  | Msg.EditItemName text =>
    some (editCurrentItem a (fun it => { it with name := normText text }))
  | Msg.EditItemImage text =>
    some (editCurrentItem a (fun it => { it with image := normText text }))
  | Msg.EditItemLink text =>
    some (editCurrentItem a (fun it => { it with link := normText text }))
  | Msg.EditItemComment text =>
    some (editCurrentItem a (fun it => { it with comment := normText text }))
  | Msg.UpdateGroupName text =>
    some { a with view := { a.view with new_group_name := text } }
  | Msg.RemoveList name =>
    if confirm then
      let removed := Smap.find? a.state.lists name
      let lists2 := Smap.erase a.state.lists name
      let groups2 :=
        if removed.isSome then Smap.mapValues a.state.groups (fun g => scrub g name)
        else a.state.groups
      some { a with state := { lists := lists2, groups := groups2 } }
    else some a
  | Msg.RemoveListItem idx =>
    Option.map
      (fun lists2 => { a with state := { a.state with lists := lists2 } })
      (Smap.modifyM a.state.lists a.view.current_list (fun l => vecRemove l idx))
  | Msg.RemoveGroup name =>
    if confirm then
      some { a with state := { a.state with groups := Smap.erase a.state.groups name } }
    else some a
  | Msg.RemoveGroupItem name =>
    some { a with state := { a.state with
             groups := Smap.modify a.state.groups a.view.current_group
               (fun g => scrub g name) } }
  | Msg.FreezeList name =>
    Option.map
      (fun it => { a with view := { a.view with cache := Smap.insert a.view.cache name it } })
      (choose_from_list a.state r name)
  | Msg.ThawList name =>
    some { a with view := { a.view with cache := Smap.erase a.view.cache name } }
  | Msg.ThawAllLists =>
    some { a with view := { a.view with cache := [] } }
  | Msg.Purge =>
    if confirm then some { state := State.default, view := View.default }
    else some a
  | Msg.Tick => some a
  | Msg.Nothing => some a

/-- App::update: runs the message match, then performs the single
unconditional snapshot write `self.storage.store(KEY, Json(&self.state))`
of the post-message state. The second component lists the snapshot writes
the call performs; none means a panic escaped before the write. -/
def App.update (a : AppState) (msg : Msg) (confirm : Bool) (r : Nat) :
    Option (AppState × List State) :=
  Option.map (fun a2 => (a2, [a2.state])) (updateCore a msg confirm r)

/-! Laws of the association-list map, of Vec::remove and of the scrub loop. -/

theorem Smap.find?_insert_self {α : Type} (m : Smap α) (k : String) (v : α) :
    Smap.find? (Smap.insert m k v) k = some v := by
  induction m with
  | nil => simp [Smap.insert, Smap.find?]
  | cons p rest ih =>
    obtain ⟨k0, v0⟩ := p
    by_cases h : k0 = k
    · simp [Smap.insert, Smap.find?, h]
    · simp [Smap.insert, Smap.find?, h, ih]

theorem Smap.find?_insert_of_ne {α : Type} (m : Smap α) (k k2 : String) (v : α)
    (h : k2 ≠ k) : Smap.find? (Smap.insert m k v) k2 = Smap.find? m k2 := by
  induction m with
  | nil => simp [Smap.insert, Smap.find?, Ne.symm h]
  | cons p rest ih =>
    obtain ⟨k0, v0⟩ := p
    by_cases h0 : k0 = k
    · subst h0
      simp [Smap.insert, Smap.find?, Ne.symm h]
    · by_cases h2 : k0 = k2 <;> simp [Smap.insert, Smap.find?, h0, h2, h, ih]

theorem Smap.find?_eq_none_of_not_mem {α : Type} (m : Smap α) (k : String)
    (h : k ∉ m.map Prod.fst) : Smap.find? m k = none := by
  induction m with
  | nil => simp [Smap.find?]
  | cons p rest ih =>
    obtain ⟨k0, v0⟩ := p
    simp only [List.map_cons, List.mem_cons] at h
    push_neg at h
    have h0 : k0 ≠ k := fun e => h.1 e.symm
    simp [Smap.find?, h0, ih h.2]

theorem Smap.find?_erase_self {α : Type} (m : Smap α) (k : String)
    (h : Smap.KeysNodup m) : Smap.find? (Smap.erase m k) k = none := by
  induction m with
  | nil => simp [Smap.erase, Smap.find?]
  | cons p rest ih =>
    obtain ⟨k0, v0⟩ := p
    simp only [Smap.KeysNodup, List.map_cons, List.nodup_cons] at h
    by_cases h0 : k0 = k
    · subst h0
      simp only [Smap.erase, if_pos rfl]
      exact Smap.find?_eq_none_of_not_mem rest k0 h.1
    · simp [Smap.erase, Smap.find?, h0]
      exact ih h.2

theorem Smap.find?_erase_of_ne {α : Type} (m : Smap α) (k k2 : String)
    (h : k2 ≠ k) : Smap.find? (Smap.erase m k) k2 = Smap.find? m k2 := by
  induction m with
  | nil => simp [Smap.erase]
  | cons p rest ih =>
    obtain ⟨k0, v0⟩ := p
    by_cases h0 : k0 = k
    · subst h0
      simp [Smap.erase, Smap.find?, Ne.symm h]
    · by_cases h2 : k0 = k2 <;> simp [Smap.erase, Smap.find?, h0, h2, h, ih]

theorem Smap.erase_of_find?_none {α : Type} (m : Smap α) (k : String)
    (h : Smap.find? m k = none) : Smap.erase m k = m := by
  induction m with
  | nil => simp [Smap.erase]
  | cons p rest ih =>
    obtain ⟨k0, v0⟩ := p
    by_cases h0 : k0 = k
    · simp [Smap.find?, h0] at h
    · simp only [Smap.find?, if_neg h0] at h
      simp [Smap.erase, h0, ih h]

theorem Smap.find?_mapValues {α : Type} (m : Smap α) (f : α → α) (k : String) :
    Smap.find? (Smap.mapValues m f) k = Option.map f (Smap.find? m k) := by
  induction m with
  | nil => simp [Smap.mapValues, Smap.find?]
  | cons p rest ih =>
    obtain ⟨k0, v0⟩ := p
    simp only [Smap.mapValues] at ih ⊢
    by_cases h0 : k0 = k <;> simp [Smap.find?, h0, ih]

theorem Smap.modify_of_find?_none {α : Type} (m : Smap α) (k : String) (f : α → α)
    (h : Smap.find? m k = none) : Smap.modify m k f = m := by
  induction m with
  | nil => simp [Smap.modify]
  | cons p rest ih =>
    obtain ⟨k0, v0⟩ := p
    by_cases h0 : k0 = k
    · simp [Smap.find?, h0] at h
    · simp only [Smap.find?, if_neg h0] at h
      simp [Smap.modify, h0, ih h]

theorem Smap.find?_modify_self {α : Type} (m : Smap α) (k : String) (f : α → α)
    (v : α) (h : Smap.find? m k = some v) :
    Smap.find? (Smap.modify m k f) k = some (f v) := by
  induction m with
  | nil => simp [Smap.find?] at h
  | cons p rest ih =>
    obtain ⟨k0, v0⟩ := p
    by_cases h0 : k0 = k
    · simp only [Smap.find?, if_pos h0] at h
      injection h with hv
      subst hv
      simp [Smap.modify, Smap.find?, h0]
    · simp only [Smap.find?, if_neg h0] at h
      simp [Smap.modify, Smap.find?, h0, ih h]

theorem Smap.find?_modify_of_ne {α : Type} (m : Smap α) (k k2 : String) (f : α → α)
    (h : k2 ≠ k) : Smap.find? (Smap.modify m k f) k2 = Smap.find? m k2 := by
  induction m with
  | nil => simp [Smap.modify]
  | cons p rest ih =>
    obtain ⟨k0, v0⟩ := p
    by_cases h0 : k0 = k
    · subst h0
      simp [Smap.modify, Smap.find?, Ne.symm h]
    · by_cases h2 : k0 = k2 <;> simp [Smap.modify, Smap.find?, h0, h2, h, ih]

theorem Smap.modifyM_of_find?_none {α : Type} (m : Smap α) (k : String)
    (f : α → Option α) (h : Smap.find? m k = none) : Smap.modifyM m k f = some m := by
  induction m with
  | nil => simp [Smap.modifyM]
  | cons p rest ih =>
    obtain ⟨k0, v0⟩ := p
    by_cases h0 : k0 = k
    · simp [Smap.find?, h0] at h
    · simp only [Smap.find?, if_neg h0] at h
      simp [Smap.modifyM, h0, ih h]

theorem Smap.modifyM_of_find?_some {α : Type} (m : Smap α) (k : String)
    (f : α → Option α) (v : α) (h : Smap.find? m k = some v) :
    Smap.modifyM m k f = Option.map (fun w => Smap.modify m k (fun _ => w)) (f v) := by
  induction m with
  | nil => simp [Smap.find?] at h
  | cons p rest ih =>
    obtain ⟨k0, v0⟩ := p
    by_cases h0 : k0 = k
    · simp only [Smap.find?, if_pos h0] at h
      injection h with hv
      subst hv
      cases hf : f v0 <;> simp [Smap.modifyM, Smap.modify, h0, hf]
    · simp only [Smap.find?, if_neg h0] at h
      cases hf : f v <;> simp [Smap.modifyM, Smap.modify, h0, hf, ih h]

theorem vecRemove_of_le {α : Type} : ∀ (l : List α) (i : Nat), l.length ≤ i →
    vecRemove l i = none := by
  intro l
  induction l with
  | nil => intro i _; simp [vecRemove]
  | cons x xs ih =>
    intro i h
    cases i with
    | zero => simp at h
    | succ n =>
      have h2 : xs.length ≤ n := by simp at h; omega
      simp [vecRemove, ih n h2]

theorem vecRemove_of_lt {α : Type} : ∀ (l : List α) (i : Nat), i < l.length →
    vecRemove l i = some (l.take i ++ l.drop (i + 1)) := by
  intro l
  induction l with
  | nil => intro i h; simp at h
  | cons x xs ih =>
    intro i h
    cases i with
    | zero => simp [vecRemove]
    | succ n =>
      have h2 : n < xs.length := by simp at h; omega
      simp [vecRemove, ih n h2]

theorem listPosition_lt_length {α : Type} (p : α → Bool) :
    ∀ (l : List α) (i : Nat), listPosition p l = some i → i < l.length := by
  intro l
  induction l with
  | nil => intro i h; simp [listPosition] at h
  | cons x xs ih =>
    intro i h
    by_cases hp : p x
    · simp [listPosition, hp] at h
      simp [← h]
    · cases hx : listPosition p xs with
      | none => simp [listPosition, hp, hx] at h
      | some j =>
        simp [listPosition, hp, hx] at h
        have := ih j hx
        simp only [List.length_cons]
        omega

theorem listPosition_none {α : Type} (p : α → Bool) :
    ∀ (l : List α), listPosition p l = none → ∀ x ∈ l, p x = false := by
  intro l
  induction l with
  | nil => intro _ x hx; simp at hx
  | cons y ys ih =>
    intro h x hx
    by_cases hp : p y
    · simp [listPosition, hp] at h
    · simp only [listPosition, if_neg hp, Option.map_eq_none'] at h
      rcases List.mem_cons.mp hx with rfl | hx2
      · simpa using hp
      · exact ih h x hx2

theorem filter_eraseIdx_listPosition {α : Type} (p : α → Bool) :
    ∀ (l : List α) (i : Nat), listPosition p l = some i →
      (l.eraseIdx i).filter (fun x => !p x) = l.filter (fun x => !p x) := by
  intro l
  induction l with
  | nil => intro i h; simp [listPosition] at h
  | cons x xs ih =>
    intro i h
    by_cases hp : p x
    · simp [listPosition, hp] at h
      rw [← h]
      simp [List.eraseIdx, List.filter_cons, hp]
    · cases hx : listPosition p xs with
      | none => simp [listPosition, hp, hx] at h
      | some j =>
        simp [listPosition, hp, hx] at h
        rw [← h]
        have hxb : p x = false := by simpa using hp
        simp [List.eraseIdx, List.filter_cons, hxb, ih j hx]

theorem length_eraseIdx_of_lt {α : Type} : ∀ (l : List α) (i : Nat), i < l.length →
    (l.eraseIdx i).length + 1 = l.length := by
  intro l
  induction l with
  | nil => intro i h; simp at h
  | cons x xs ih =>
    intro i h
    cases i with
    | zero => simp [List.eraseIdx]
    | succ n =>
      have h2 : n < xs.length := by simp at h; omega
      have h3 := ih n h2
      simp only [List.eraseIdx, List.length_cons]
      omega

theorem filter_eq_self_of {α : Type} (p : α → Bool) :
    ∀ (l : List α), (∀ x ∈ l, p x = true) → l.filter p = l := by
  intro l
  induction l with
  | nil => intro _; simp
  | cons x xs ih =>
    intro h
    have hx : p x = true := h x (by simp)
    have hxs : ∀ y ∈ xs, p y = true := fun y hy => h y (by simp [hy])
    simp [List.filter_cons, hx, ih hxs]

theorem scrubFuel_eq_filter (name : String) :
    ∀ (n : Nat) (g : List String), g.length ≤ n →
      scrubFuel name n g = g.filter (fun x => !decide (x = name)) := by
  intro n
  induction n with
  | zero =>
    intro g hg
    have hg2 : g = [] := List.eq_nil_of_length_eq_zero (Nat.le_zero.mp hg)
    subst hg2
    simp [scrubFuel]
  | succ n ih =>
    intro g hg
    cases hx : listPosition (fun x => decide (x = name)) g with
    | none =>
      have hall := listPosition_none _ g hx
      have hfix : g.filter (fun x => !decide (x = name)) = g :=
        filter_eq_self_of _ g (fun x hxg => by simp [hall x hxg])
      simp [scrubFuel, hx, hfix]
    | some idx =>
      have hlt := listPosition_lt_length _ g idx hx
      have hlen := length_eraseIdx_of_lt g idx hlt
      have hle : (g.eraseIdx idx).length ≤ n := by omega
      have hrec := ih (g.eraseIdx idx) hle
      have hfe := filter_eraseIdx_listPosition _ g idx hx
      simp only [scrubFuel, hx]
      rw [hrec]
      simpa using hfe

theorem scrub_eq_filter (g : List String) (name : String) :
    scrub g name = g.filter (fun x => !decide (x = name)) :=
  scrubFuel_eq_filter name g.length g le_rfl

/-! Concrete fixtures used by the witnesses and counterexamples. -/

/-- Sample item named Dune. -/
def itemA : Item := { name := some "Dune", image := none, link := none, comment := none }

/-- Sample item named Arrival. -/
def itemB : Item := { name := some "Arrival", image := none, link := none, comment := none }

/-- App with a present but empty list, focused. -/
def app2 : AppState :=
  ⟨{ lists := [("a", [])], groups := [] }, { View.default with current_list := "a" }⟩

/-- App whose current-list focus names no existing list. -/
def app2b : AppState :=
  ⟨{ lists := [("movies", [itemA])], groups := [] },
   { View.default with current_list := "absent" }⟩

/-- App focused on a one-item list with the item itself focused. -/
def app3 : AppState :=
  ⟨{ lists := [("a", [Item.default])], groups := [] },
   { View.default with current_list := "a", current_item := some 0 }⟩

/-- App focused on a two-item list with item 0 focused. -/
def app3b : AppState :=
  ⟨{ lists := [("movies", [itemA, itemB])], groups := [] },
   { View.default with current_list := "movies", current_item := some 0 }⟩

/-- App with two lists and two groups, one group holding movies twice. -/
def app4 : AppState :=
  ⟨{ lists := [("movies", [itemA]), ("books", [])],
     groups := [("weekend", ["movies", "movies", "books"]), ("solo", ["books"])] },
   View.default⟩

/-- App with a present empty list (for the FreezeList panic). -/
def app6 : AppState := ⟨{ lists := [("empty", [])], groups := [] }, View.default⟩

/-- App with one nonempty list and no groups. -/
def app6b : AppState := ⟨{ lists := [("movies", [itemA])], groups := [] }, View.default⟩

/-- App whose staged list name collides with an existing list. -/
def app7 : AppState :=
  ⟨{ lists := [("movies", [itemA, itemB])], groups := [] },
   { View.default with new_list_name := "movies" }⟩

/-- App focused on a group holding the same member twice, plus another group. -/
def app8 : AppState :=
  ⟨{ lists := [], groups := [("weekend", ["movies", "movies"]), ("other", ["movies"])] },
   { View.default with current_group := "weekend" }⟩

/-- App with a cached entry for x and a one-item list x. -/
def app9 : AppState :=
  ⟨{ lists := [("x", [itemA])], groups := [] },
   { View.default with cache := [("x", itemB)] }⟩

/-- App with an absent current list and a stale focused item index. -/
def app10 : AppState :=
  ⟨{ lists := [("movies", [itemA])], groups := [] },
   { View.default with current_list := "absent", current_item := some 5 }⟩

/-! The claims. -/

/-- C1: choose_from_list on an absent list returns the sentinel empty Item
(all four fields absent) and on a nonempty list returns one of its items
(here both items of a two-item list, for two pick indices); but on a
present, empty list the code panics — the unwrap of a None choose — which
the embedding records as none, instead of returning the sentinel the claim
and the spec mandate. -/
theorem C1_draw_empty_present_list_panics :
    choose_from_list { lists := [("empty", [])], groups := [] } 0 "empty" = none ∧
    choose_from_list { lists := [("empty", [])], groups := [] } 0 "absent" = some Item.default ∧
    choose_from_list { lists := [("movies", [itemA, itemB])], groups := [] } 0 "movies" = some itemA ∧
    choose_from_list { lists := [("movies", [itemA, itemB])], groups := [] } 1 "movies" = some itemB := by
  refine ⟨rfl, rfl, rfl, rfl⟩

/-- C2 counterexample: with the current list present but empty, index 0 is
invalid, yet RemoveListItem is not a silent no-op: Vec::remove panics and
the handler aborts (none) rather than leaving the state unchanged. -/
theorem C2_invalid_index_panics :
    App.update app2 (Msg.RemoveListItem 0) true 0 = none := by decide

/-- C2 amended: RemoveListItem with the current list absent is a silent
no-op (the state is unchanged and the snapshot is still written); but with
the current list present and the index at or beyond its length the handler
panics (none) instead of degrading to a no-op. -/
theorem C2_remove_item_invalid (a : AppState) (idx : Nat) (c : Bool) (r : Nat) :
    (Smap.find? a.state.lists a.view.current_list = none →
      App.update a (Msg.RemoveListItem idx) c r = some (a, [a.state])) ∧
    (∀ l, Smap.find? a.state.lists a.view.current_list = some l → l.length ≤ idx →
      App.update a (Msg.RemoveListItem idx) c r = none) := by
  constructor
  · intro h
    simp [App.update, updateCore, Smap.modifyM_of_find?_none _ _ _ h]
  · intro l h hlen
    simp [App.update, updateCore, Smap.modifyM_of_find?_some _ _ _ _ h,
      vecRemove_of_le l idx hlen]

/-- C2 witness: the amended theorem applied to a concrete absent current
list (silent no-op) and to a concrete present list with an out-of-range
index (panic). -/
theorem C2_remove_item_invalid_witness :
    App.update app2b (Msg.RemoveListItem 3) true 0 = some (app2b, [app2b.state]) ∧
    App.update app2 (Msg.RemoveListItem 1) true 0 = none :=
  ⟨(C2_remove_item_invalid app2b 3 true 0).1 (by decide),
   (C2_remove_item_invalid app2 1 true 0).2 [] (by decide) (by decide)⟩

/-- C3 counterexample: removing the item at the focused index 0 leaves the
current-item focus at some 0 instead of clearing it, so the claim that a
focus equal to the removed index is cleared is false on the code. -/
theorem C3_focus_not_cleared :
    Option.map (fun p => p.1.view.current_item)
        (App.update app3 (Msg.RemoveListItem 0) true 0) = some (some 0) ∧
    Option.map (fun p => p.1.view.current_item)
        (App.update app3 (Msg.RemoveListItem 0) true 0) ≠ some none := by
  constructor
  · decide
  · decide

/-- C3 amended: removing the item at a valid index i replaces the current
list by take i ++ drop (i+1), i.e. every item previously at an index > i
shifts down by one; the view — including a current-item focus equal to
i — is left entirely unchanged rather than cleared (stale focus is instead
bounds-checked on the read paths). -/
theorem C3_remove_item_shifts (a : AppState) (i : Nat) (l : List Item) (c : Bool) (r : Nat)
    (hl : Smap.find? a.state.lists a.view.current_list = some l) (hi : i < l.length) :
    App.update a (Msg.RemoveListItem i) c r =
      some (⟨{ a.state with lists :=
                 (Smap.modify a.state.lists a.view.current_list
                   (fun _ => l.take i ++ l.drop (i + 1))) }, a.view⟩,
        [{ a.state with lists :=
             (Smap.modify a.state.lists a.view.current_list
               (fun _ => l.take i ++ l.drop (i + 1))) }]) := by
  simp [App.update, updateCore, Smap.modifyM_of_find?_some _ _ _ _ hl,
    vecRemove_of_lt l i hi]

/-- C3 witness: the amended theorem applied to a concrete two-item list
with index 0: the second item shifts to index 0 and the view, stale focus
included, is unchanged. -/
theorem C3_remove_item_shifts_witness :
    App.update app3b (Msg.RemoveListItem 0) true 0 =
      some (⟨{ lists := [("movies", [itemB])], groups := [] }, app3b.view⟩,
        [{ lists := [("movies", [itemB])], groups := [] }]) := by
  have h := C3_remove_item_shifts app3b 0 [itemA, itemB] true 0 (by decide) (by decide)
  rw [h]
  decide

/-- C4: RemoveList with confirmation removes the named list (looking it up
now fails, while every other list is untouched) and, exactly when the list
existed, removes every occurrence of its name from every group's
membership — each membership becomes its filter, so other members keep
their relative order, and duplicate occurrences all disappear; when the
list did not exist the groups are untouched. -/
theorem C4_remove_list_cascades (a : AppState) (name : String) (r : Nat)
    (hnd : Smap.KeysNodup a.state.lists) :
    ∃ st2, updateCore a (Msg.RemoveList name) true r = some ⟨st2, a.view⟩ ∧
      Smap.find? st2.lists name = none ∧
      (∀ k, k ≠ name → Smap.find? st2.lists k = Smap.find? a.state.lists k) ∧
      (∀ l, Smap.find? a.state.lists name = some l →
        ∀ g gl, Smap.find? a.state.groups g = some gl →
          Smap.find? st2.groups g = some (gl.filter (fun x => !decide (x = name)))) ∧
      (Smap.find? a.state.lists name = none → st2.groups = a.state.groups) := by
  refine ⟨{ lists := Smap.erase a.state.lists name,
            groups := if (Smap.find? a.state.lists name).isSome
              then Smap.mapValues a.state.groups (fun g => scrub g name)
              else a.state.groups }, ?_, ?_, ?_, ?_, ?_⟩
  · simp [updateCore]
  · exact Smap.find?_erase_self _ _ hnd
  · exact fun k hk => Smap.find?_erase_of_ne _ _ _ hk
  · intro l hl g gl hg
    simp only [hl, Option.isSome_some, if_pos]
    rw [Smap.find?_mapValues, hg]
    simp [scrub_eq_filter]
  · intro h
    simp [h]

/-- C4 witness: the theorem applied to a concrete state with the list
movies present and a group holding movies twice: the list is gone and both
groups are scrubbed of every movies occurrence. -/
theorem C4_remove_list_cascades_witness :
    Option.map (fun a2 => (Smap.find? a2.state.lists "movies",
        Smap.find? a2.state.groups "weekend", Smap.find? a2.state.groups "solo"))
      (updateCore app4 (Msg.RemoveList "movies") true 0) =
      some (none, some ["books"], some ["books"]) := by
  obtain ⟨st2, h1, h2, h3, h4, h5⟩ := C4_remove_list_cascades app4 "movies" 0 (by decide)
  have hw := h4 [itemA] (by decide) "weekend" ["movies", "movies", "books"] (by decide)
  have hs := h4 [itemA] (by decide) "solo" ["books"] (by decide)
  rw [h1]
  simp only [Option.map_some']
  rw [h2, hw, hs]
  decide

/-- C5: Purge with confirmation accepted leaves both maps empty, empties
the selection cache, resets all focus and name-input buffers, and writes
the empty snapshot; with confirmation declined everything is unchanged and
the unchanged snapshot is still written (a no-op, not an error). -/
theorem C5_purge (a : AppState) (r : Nat) :
    App.update a Msg.Purge true r =
      some (⟨⟨[], []⟩, ⟨"", "", "", "", [], none⟩⟩, [⟨[], []⟩]) ∧
    App.update a Msg.Purge false r = some (a, [a.state]) :=
  ⟨rfl, rfl⟩

/-- C6 counterexample: FreezeList on a present empty list panics inside the
handler, so no snapshot at all is written for this message, refuting the
claim that every message ends with exactly one unconditional snapshot
write. -/
theorem C6_freeze_empty_writes_nothing :
    App.update app6 (Msg.FreezeList "empty") true 0 = none := by decide

/-- C6 amended: whenever the handler completes, it ends with exactly one
snapshot write, of the post-message state; a handler can fail to complete
(and then nothing is written) only for a FreezeList or a RemoveListItem
message. -/
theorem C6_snapshot_write (a : AppState) (msg : Msg) (confirm : Bool) (r : Nat) :
    (∀ p, App.update a msg confirm r = some p → p.2 = [p.1.state]) ∧
    (App.update a msg confirm r = none →
      (∃ name, msg = Msg.FreezeList name) ∨ (∃ idx, msg = Msg.RemoveListItem idx)) := by
  constructor
  · intro p hp
    simp only [App.update] at hp
    cases huc : updateCore a msg confirm r with
    | none => rw [huc] at hp; simp at hp
    | some a2 =>
      rw [huc] at hp
      simp only [Option.map_some'] at hp
      injection hp with h2
      subst h2
      rfl
  · intro hnone
    cases msg
    case FreezeList name => exact Or.inl ⟨name, rfl⟩
    case RemoveListItem idx => exact Or.inr ⟨idx, rfl⟩
    case CreateItem =>
      exfalso
      cases hfl : Smap.find? a.state.lists a.view.current_list <;>
        simp [App.update, updateCore, hfl] at hnone
    all_goals exfalso
    all_goals cases confirm <;> simp [App.update, updateCore] at hnone

/-- C6 witness: the amended theorem applied to a concrete Tick message,
whose completed handler wrote exactly the one post-message snapshot. -/
theorem C6_snapshot_write_witness :
    App.update app6b Msg.Tick true 0 = some (app6b, [app6b.state]) ∧
    (app6b, [app6b.state]).2 = [(app6b, [app6b.state]).1.state] :=
  ⟨by decide, (C6_snapshot_write app6b Msg.Tick true 0).1 (app6b, [app6b.state]) (by decide)⟩

/-- C7: CreateList when a list with the staged name already exists leaves
the whole State unchanged — in particular that list's item sequence is not
reset, and there is still exactly one list with that name — switches the
current-list focus to the staged name, and drains the staged name buffer
to empty. -/
theorem C7_create_list_idempotent (a : AppState) (l : List Item) (c : Bool) (r : Nat)
    (h : Smap.find? a.state.lists a.view.new_list_name = some l) :
    App.update a Msg.CreateList c r =
      some (⟨a.state,
        { a.view with current_list := a.view.new_list_name, new_list_name := "" }⟩,
        [a.state]) := by
  simp [App.update, updateCore, Smap.insertIfAbsent, h]

/-- C7 witness: the theorem applied to a concrete state whose staged name
movies collides with the existing two-item movies list. -/
theorem C7_create_list_idempotent_witness :
    App.update app7 Msg.CreateList true 0 =
      some (⟨app7.state,
        { app7.view with current_list := "movies", new_list_name := "" }⟩,
        [app7.state]) :=
  C7_create_list_idempotent app7 [itemA, itemB] true 0 (by decide)

/-- C8: RemoveGroupItem removes all occurrences of the name from the
current group's membership — the membership becomes its filter, so the
other members keep their relative order and duplicates all disappear —
leaves every other group unchanged, and is a silent no-op when the current
group is absent. -/
theorem C8_remove_group_member (a : AppState) (name : String) (c : Bool) (r : Nat) :
    (Smap.find? a.state.groups a.view.current_group = none →
      updateCore a (Msg.RemoveGroupItem name) c r = some a) ∧
    (∀ g, Smap.find? a.state.groups a.view.current_group = some g →
      updateCore a (Msg.RemoveGroupItem name) c r =
        some { a with state := { a.state with
          groups := Smap.modify a.state.groups a.view.current_group
            (fun gl => scrub gl name) } } ∧
      Smap.find? (Smap.modify a.state.groups a.view.current_group
          (fun gl => scrub gl name)) a.view.current_group =
        some (g.filter (fun x => !decide (x = name))) ∧
      (∀ k, k ≠ a.view.current_group →
        Smap.find? (Smap.modify a.state.groups a.view.current_group
            (fun gl => scrub gl name)) k = Smap.find? a.state.groups k)) := by
  constructor
  · intro h
    simp [updateCore, Smap.modify_of_find?_none _ _ _ h]
  · intro g hg
    refine ⟨rfl, ?_, fun k hk => Smap.find?_modify_of_ne _ _ _ _ hk⟩
    rw [Smap.find?_modify_self _ _ _ _ hg]
    simp [scrub_eq_filter]

/-- C8 witness: the theorem applied to the spec scenario — the group
weekend holds movies twice, RemoveGroupItem movies empties it, and the
untouched group other still holds movies. -/
theorem C8_remove_group_member_witness :
    Option.map (fun a2 => Smap.find? a2.state.groups "weekend")
        (updateCore app8 (Msg.RemoveGroupItem "movies") true 0) = some (some []) ∧
    Option.map (fun a2 => Smap.find? a2.state.groups "other")
        (updateCore app8 (Msg.RemoveGroupItem "movies") true 0) = some (some ["movies"]) := by
  obtain ⟨hnone, hsome⟩ := C8_remove_group_member app8 "movies" true 0
  obtain ⟨h1, h2, h3⟩ := hsome ["movies", "movies"] (by decide)
  rw [h1]
  constructor
  · decide
  · decide

/-- C9: FreezeList stores the drawn item in the cache under the list name,
overwriting any prior entry, so peeking that name returns exactly the item
and every other entry is untouched; ThawList removes the entry, after
which peeking the name returns absent, and is a no-op when no entry
exists; ThawAllLists leaves the cache empty. -/
theorem C9_cache_freeze_thaw (a : AppState) (name : String) (c : Bool) (r : Nat) :
    (∀ it, choose_from_list a.state r name = some it →
      updateCore a (Msg.FreezeList name) c r =
        some { a with view := { a.view with cache := Smap.insert a.view.cache name it } } ∧
      Smap.find? (Smap.insert a.view.cache name it) name = some it ∧
      (∀ k, k ≠ name → Smap.find? (Smap.insert a.view.cache name it) k =
        Smap.find? a.view.cache k)) ∧
    (updateCore a (Msg.ThawList name) c r =
        some { a with view := { a.view with cache := Smap.erase a.view.cache name } } ∧
      (Smap.KeysNodup a.view.cache → Smap.find? (Smap.erase a.view.cache name) name = none) ∧
      (Smap.find? a.view.cache name = none → Smap.erase a.view.cache name = a.view.cache)) ∧
    updateCore a Msg.ThawAllLists c r =
      some { a with view := { a.view with cache := [] } } := by
  refine ⟨?_, ⟨rfl, ?_, ?_⟩, rfl⟩
  · intro it hit
    refine ⟨?_, Smap.find?_insert_self _ _ _, fun k hk => Smap.find?_insert_of_ne _ _ _ _ hk⟩
    simp [updateCore, hit]
  · exact fun h => Smap.find?_erase_self _ _ h
  · exact fun h => Smap.erase_of_find?_none _ _ h

/-- C9 witness: the theorem applied to a concrete cache holding a prior
entry for x: freezing x overwrites it with the drawn item, peeking then
returns the new item, and thawing x empties the entry. -/
theorem C9_cache_freeze_thaw_witness :
    updateCore app9 (Msg.FreezeList "x") true 0 =
      some ⟨app9.state, { app9.view with cache := [("x", itemA)] }⟩ ∧
    Smap.find? [("x", itemA)] "x" = some itemA ∧
    updateCore app9 (Msg.ThawList "x") true 0 =
      some ⟨app9.state, { app9.view with cache := [] }⟩ ∧
    Smap.find? ([] : Smap Item) "x" = none := by
  obtain ⟨hf, ht, hall⟩ := C9_cache_freeze_thaw app9 "x" true 0
  obtain ⟨h1, h2, h3⟩ := hf itemA (by decide)
  refine ⟨?_, by decide, ?_, by decide⟩
  · rw [h1]; decide
  · rw [ht.1]; decide

/-- C10: CreateItem when the current-list focus does not name an existing
list leaves both maps unchanged and sets the current-item focus to none,
clearing any previously focused item index as a side effect of the failed
append. -/
theorem C10_create_item_absent_list (a : AppState) (c : Bool) (r : Nat)
    (h : Smap.find? a.state.lists a.view.current_list = none) :
    App.update a Msg.CreateItem c r =
      some (⟨a.state, { a.view with current_item := none }⟩, [a.state]) := by
  simp [App.update, updateCore, h]

/-- C10 witness: the theorem applied to a concrete state with an absent
current list and a stale focused index some 5, which gets cleared. -/
theorem C10_create_item_absent_list_witness :
    App.update app10 Msg.CreateItem true 0 =
      some (⟨app10.state, { app10.view with current_item := none }⟩, [app10.state]) :=
  C10_create_item_absent_list app10 true 0 (by decide)

end Spoon
